import Mathlib

/-!
Verification of the microstrip / stepped-impedance LPF / resonator calculators:
a shallow embedding over the reals of the computational core of
`microstrip_analysis.py`, `lpf_design.py` and `resonator_analysis.py`.
Python float arithmetic is modelled by exact real arithmetic; the power
`x ** (-0.5)` (always applied to a positive base on the code paths of interest)
is modelled as `(Real.sqrt x)⁻¹`; a Python `IndexError` escaping a function is
modelled by `Option.none`.
-/

namespace RF

noncomputable section

/-- `scipy.constants.c`: the speed of light in m/s, as used by every module. -/
def lightSpeed : ℝ := 299792458

/-- Wide-line effective permittivity: the `w/h >= 1` branch of
`MicrostripAnalysis.calc_microstrip_params`. -/
def effErWide (er h w : ℝ) : ℝ :=
  (er + 1) / 2 + (er - 1) / 2 * (Real.sqrt (1 + 12 * h / w))⁻¹

/-- Narrow-line effective permittivity: the `else` branch of
`calc_microstrip_params`, with the `0.04*(1 - w/h)**2` correction term. -/
def effErNarrow (er h w : ℝ) : ℝ :=
  (er + 1) / 2 + (er - 1) / 2 * ((Real.sqrt (1 + 12 * h / w))⁻¹ + 0.04 * (1 - w / h) ^ 2)

/-- Wide-line characteristic impedance branch of `calc_microstrip_params`. -/
def z0Wide (er h w : ℝ) : ℝ :=
  120 * Real.pi /
    (Real.sqrt (effErWide er h w) * (w / h + 1.393 + 0.667 * Real.log (w / h + 1.444)))

/-- Narrow-line characteristic impedance branch of `calc_microstrip_params`. -/
def z0Narrow (er h w : ℝ) : ℝ :=
  60 / Real.sqrt (effErNarrow er h w) * Real.log (8 * h / w + w / (4 * h))

/-- `MicrostripAnalysis.calc_microstrip_params`: piecewise on `w/h >= 1`,
returning `(Z0, eff_er)`. -/
def calcMicrostripParams (er h w : ℝ) : ℝ × ℝ :=
  if 1 ≤ w / h then (z0Wide er h w, effErWide er h w)
  else (z0Narrow er h w, effErNarrow er h w)

/-- The intermediate quantity `A` of the `Z_target >= 44` branch of
`LPFDesign.calc_microstrip_width`. -/
def widthA (er Z : ℝ) : ℝ :=
  Z * Real.sqrt ((er + 1) / 2) / 60 + (er - 1) / (er + 1) * (0.23 + 0.11 / er)

/-- `LPFDesign.calc_microstrip_width`: the declared impedance-to-width inverse.
Note the `Z_target < 44` branch does not use `Z` at all, exactly as in the
source. -/
def calcMicrostripWidth (er h Z : ℝ) : ℝ :=
  if Z < 44 then
    (2 / Real.pi * (er - 1) * Real.log (Real.pi / 2) + 1 / Real.pi * Real.log (4 / Real.pi)) * h
  else
    8 * Real.exp (widthA er Z) / (Real.exp (2 * widthA er Z) - 2) * h

/-- Forward impedance computation followed by the declared inverse on the same
substrate (the round trip of claim C1). -/
def roundTripWidth (er h w : ℝ) : ℝ :=
  calcMicrostripWidth er h (calcMicrostripParams er h w).1

/-- The hard-coded Chebyshev prototype table `g` of `design_stepped_lpf`
(n = 5, 0.1 dB ripple). -/
def gTable : List ℝ := [1.0, 0.6180, 1.6180, 2.0000, 1.6180, 0.6180, 1.0]

/-- Odd-section (high) impedance of `design_stepped_lpf`; `self.Z0 = 50`. -/
def zHighOf (g : ℝ) : ℝ := 50 * Real.sqrt (1 + g * (Real.pi / 2) * (50 / 50))

/-- Even-section (low) impedance of `design_stepped_lpf`; `self.Z0 = 50`. -/
def zLowOf (g : ℝ) : ℝ := 50 / Real.sqrt (1 + g * (Real.pi / 2) * (50 / 50))

/-- The `for i in range(1, n+1)` loop of `design_stepped_lpf` accumulating the
high/low impedance lists in order; `none` models the `IndexError` raised when
`g[i]` is out of range. -/
def impedanceLists : ℕ → Option (List ℝ × List ℝ)
  | 0 => some ([], [])
  | k + 1 =>
    match impedanceLists k, gTable.get? (k + 1) with
    | some p, some g =>
      if (k + 1) % 2 = 1 then some (p.1 ++ [zHighOf g], p.2)
      else some (p.1, p.2 ++ [zLowOf g])
    | _, _ => none

/-- The dictionary returned by `design_stepped_lpf`. -/
structure LPFParams where
  Zhigh : List ℝ
  Zlow : List ℝ
  widthsHigh : List ℝ
  widthsLow : List ℝ
  sectionLength : ℝ
  lambdaG : ℝ

/-- `LPFDesign.design_stepped_lpf` on substrate `(er, h)` with system impedance
`self.Z0 = 50`. -/
def designSteppedLPF (er h fc : ℝ) (n : ℕ) : Option LPFParams :=
  (impedanceLists n).map fun p =>
    let lambdaG := lightSpeed / (fc * Real.sqrt er)
    { Zhigh := p.1
      Zlow := p.2
      widthsHigh := p.1.map (calcMicrostripWidth er h)
      widthsLow := p.2.map (calcMicrostripWidth er h)
      sectionLength := lambdaG / 8
      lambdaG := lambdaG }

/-- The (impedance, width) pairs of all sections of a design, high sections
first; an absent design contributes no sections. -/
def lpfSections : Option LPFParams → List (ℝ × ℝ)
  | none => []
  | some d => d.Zhigh.zip d.widthsHigh ++ d.Zlow.zip d.widthsLow

/-- Dielectric attenuation term of `calc_s_parameters`. -/
def alphaD (er h tand w f : ℝ) : ℝ :=
  Real.pi * f * Real.sqrt (calcMicrostripParams er h w).2 * tand / lightSpeed

/-- Simplified conductor attenuation term of `calc_s_parameters`. -/
def alphaC (f : ℝ) : ℝ := 8.686 * 0.1 * Real.sqrt f

/-- Phase constant `beta = 2*pi*f*sqrt(eff_er)/c` of `calc_s_parameters`. -/
def betaOf (er h w f : ℝ) : ℝ :=
  2 * Real.pi * f * Real.sqrt (calcMicrostripParams er h w).2 / lightSpeed

/-- Input reflection coefficient of `calc_s_parameters` (50 ohm reference). -/
def rhoOf (Z0 : ℝ) : ℝ := (Z0 - 50) / (Z0 + 50)

/-- The closing `S21` transmission-line formula of `calc_s_parameters`, as a
function of attenuation, phase constant, reflection coefficient and length:
`exp_gl * (1 - rho^2) / (1 - rho^2 * exp_gl^2)` with
`exp_gl = exp(-(alpha + i*beta)*length)`. -/
def S21line (alpha beta rho l : ℝ) : ℂ :=
  Complex.exp (-(((alpha : ℂ) + Complex.I * (beta : ℂ)) * (l : ℂ))) * (1 - (rho : ℂ) ^ 2) /
    (1 - (rho : ℂ) ^ 2 * Complex.exp (-(((alpha : ℂ) + Complex.I * (beta : ℂ)) * (l : ℂ))) ^ 2)

/-- One frequency sample of `S21` from `calc_s_parameters`. -/
def calcS21 (er h tand w l f : ℝ) : ℂ :=
  S21line (alphaD er h tand w f + alphaC f) (betaOf er h w f)
    (rhoOf (calcMicrostripParams er h w).1) l

/-- `ResonatorAnalysis.calc_resonator_length`: quarter-wave length and the
(simplified, always wide-regime) effective permittivity; returns
`(length, eff_er)`. -/
def calcResonatorLength (er h fres w : ℝ) : ℝ × ℝ :=
  let effEr := (er + 1) / 2 + (er - 1) / 2 * (Real.sqrt (1 + 12 * h / w))⁻¹
  (lightSpeed / (fres * Real.sqrt effEr) / 4, effEr)

/-- Combined quality factor `1/(1/Q_ext + 1/Q_int)` with `Q_ext = 100`,
`Q_int = 1000`, from `calc_resonator_s_params`. -/
def qTotal : ℝ := 1 / (1 / 100 + 1 / 1000)

/-- Gap-coupling coefficient `k = 0.1 * exp(-g/h)` of `calc_resonator_s_params`. -/
def couplingK (h g : ℝ) : ℝ := 0.1 * Real.exp (-(g / h))

/-- The data produced by `calc_resonator_s_params`: the two S-parameter curves
(as pointwise functions of the swept frequency), the resonant frequency and the
resonator length. -/
structure ResonatorResult where
  S11 : ℝ → ℂ
  S21 : ℝ → ℂ
  fres : ℝ
  length : ℝ

/-- `ResonatorAnalysis.calc_resonator_s_params` (per frequency sample; the sweep
is applied pointwise). The dimension `d` is accepted and, as in the source,
never used by the computation. -/
def calcResonatorSParams (er h d g w : ℝ) : ResonatorResult :=
  let k := couplingK h g
  let L := calcResonatorLength er h 5e9 w
  let fres := lightSpeed / (4 * L.1 * Real.sqrt L.2)
  { S11 := fun f =>
      Complex.I * (qTotal : ℂ) * (((f - fres) / fres : ℝ) : ℂ) /
        (1 + Complex.I * (qTotal : ℂ) * (((f - fres) / fres : ℝ) : ℂ))
    S21 := fun f =>
      (k : ℂ) / (1 + Complex.I * (qTotal : ℂ) * (((f - fres) / fres : ℝ) : ℂ))
    fres := fres
    length := L.1 }

/-- The attribute state of a `MicrostripAnalysis` object: the constructor fields
together with the `self.eff_er` and `self.Z0` slots that
`calc_microstrip_params` assigns (absent until the first call). -/
structure AnalysisState where
  er : ℝ
  h : ℝ
  tand : ℝ
  effErSlot : Option ℝ
  z0Slot : Option ℝ

/-- `calc_microstrip_params` as a state transformer on the object: it writes the
two slots and returns `(Z0, eff_er)`. -/
def calcParamsSt (s : AnalysisState) (w : ℝ) : AnalysisState × (ℝ × ℝ) :=
  let p := calcMicrostripParams s.er s.h w
  ({ s with effErSlot := some p.2, z0Slot := some p.1 }, p)

/-- The piecewise Hammerstad formulas exactly as worded in the specification:
wide regime for `w/h >= 1`, narrow regime with the `0.04*(1 - w/h)^2`
correction otherwise. Stated independently of the embedding of the code, for
the refinement claim C5. -/
def hammerstadSpec (er h w : ℝ) : ℝ × ℝ :=
  if 1 ≤ w / h then
    (120 * Real.pi /
        (Real.sqrt ((er + 1) / 2 + (er - 1) / 2 * (Real.sqrt (1 + 12 * h / w))⁻¹) *
          (w / h + 1.393 + 0.667 * Real.log (w / h + 1.444))),
      (er + 1) / 2 + (er - 1) / 2 * (Real.sqrt (1 + 12 * h / w))⁻¹)
  else
    (60 / Real.sqrt
          ((er + 1) / 2 +
            (er - 1) / 2 * ((Real.sqrt (1 + 12 * h / w))⁻¹ + 0.04 * (1 - w / h) ^ 2)) *
        Real.log (8 * h / w + w / (4 * h)),
      (er + 1) / 2 + (er - 1) / 2 * ((Real.sqrt (1 + 12 * h / w))⁻¹ + 0.04 * (1 - w / h) ^ 2))

/-- The high-section impedance formula as worded in claim C6:
`Z0 * sqrt(1 + g*(pi/2)*(Z0/50))` at system impedance `Z0 = 50`. -/
def zHighSpec (g : ℝ) : ℝ := 50 * Real.sqrt (1 + g * (Real.pi / 2) * (50 / 50))

/-- The low-section impedance formula as worded in claim C6:
`Z0 / sqrt(1 + g*(pi/2)*(50/Z0))` at system impedance `Z0 = 50`. -/
def zLowSpec (g : ℝ) : ℝ := 50 / Real.sqrt (1 + g * (Real.pi / 2) * (50 / 50))

/-- Claim C5: for positive geometry and `er > 1`, `calc_microstrip_params`
computes exactly the piecewise Hammerstad formulas selected by `w/h`: the wide
formulas when `w/h >= 1`, and the narrow formulas (with the `0.04*(1 - w/h)^2`
correction in `eff_er`) otherwise. -/
theorem calc_params_matches_hammerstad (er h w : ℝ)
    (hw : 0 < w) (hh : 0 < h) (her : 1 < er) :
    calcMicrostripParams er h w = hammerstadSpec er h w := rfl

/-- Witness for claim C5 at `er = 4.4`, `h = 1.6 mm`, `w = 2 mm`. -/
theorem calc_params_matches_hammerstad_witness :
    (0 : ℝ) < 0.002 ∧ (0 : ℝ) < 0.0016 ∧ (1 : ℝ) < 4.4 ∧
      calcMicrostripParams 4.4 0.0016 0.002 = hammerstadSpec 4.4 0.0016 0.002 :=
  ⟨by norm_num, by norm_num, by norm_num,
    calc_params_matches_hammerstad 4.4 0.0016 0.002 (by norm_num) (by norm_num) (by norm_num)⟩

/-- Claim C6: for `n = 5`, `design_stepped_lpf` produces by alternation exactly
3 high-impedance sections (indices 1, 3, 5, prototype values `g = 0.618, 2.0,
0.618`) and 2 low-impedance sections (indices 2, 4, `g = 1.618`), with the
stated formulas at system impedance 50. -/
theorem design_stepped_lpf_alternation (er h fc : ℝ) :
    (designSteppedLPF er h fc 5).map (fun d => (d.Zhigh, d.Zlow)) =
      some ([zHighSpec 0.6180, zHighSpec 2.0000, zHighSpec 0.6180],
        [zLowSpec 1.6180, zLowSpec 1.6180]) := rfl

/-- Claim C2, behaviour of the code at the failing input: for the unsupported
order `n = 3` the synthesizer silently returns a (partial) design with 2 high
and 1 low sections, instead of failing with `UnsupportedOrder`. -/
theorem design_stepped_lpf_order3_returns_design (er h fc : ℝ) :
    (designSteppedLPF er h fc 3).map (fun d => (d.Zhigh.length, d.Zlow.length)) =
      some (2, 1) := rfl

/-- Claim C3, behaviour of the code at the failing inputs: none of the
microstrip formulas validates its geometry. At width `-1 mm` the forward
calculator evaluates the narrow-branch formula; at a negative target impedance
the inverse evaluates its `Z < 44` branch; `S21` is evaluated for a negative
length. No `InvalidGeometry` failure exists anywhere. -/
theorem no_geometry_validation :
    calcMicrostripParams 4.4 0.0016 (-0.001) =
        (z0Narrow 4.4 0.0016 (-0.001), effErNarrow 4.4 0.0016 (-0.001)) ∧
      calcMicrostripWidth 4.4 0.0016 (-50) =
        (2 / Real.pi * (4.4 - 1) * Real.log (Real.pi / 2) +
            1 / Real.pi * Real.log (4 / Real.pi)) * 0.0016 ∧
      calcS21 4.4 0.0016 0.025 0.002 (-0.01) 1e9 =
        S21line (alphaD 4.4 0.0016 0.025 0.002 1e9 + alphaC 1e9) (betaOf 4.4 0.0016 0.002 1e9)
          (rhoOf (calcMicrostripParams 4.4 0.0016 0.002).1) (-0.01) := by
  refine ⟨?_, ?_, rfl⟩
  · rw [calcMicrostripParams, if_neg]
    norm_num
  · rw [calcMicrostripWidth, if_pos]
    norm_num

/-- Claim C8: at the returned resonant frequency (`delta = 0`), the resonator
model yields `S11 = 0` and `S21 = k` exactly, `k = 0.1*exp(-g/h)` being the
coupling coefficient. -/
theorem resonator_on_resonance (er h d g w : ℝ) :
    (calcResonatorSParams er h d g w).S11 (calcResonatorSParams er h d g w).fres = 0 ∧
      (calcResonatorSParams er h d g w).S21 (calcResonatorSParams er h d g w).fres =
        (couplingK h g : ℂ) := by
  constructor <;> simp [calcResonatorSParams]

/-- Claim C10: the resonant frequency returned by `calc_resonator_s_params` is
exactly `5e9` Hz for every gap `g`, dimension `d` and width `w`: the length is
derived from the fixed 5 GHz nominal and the `f_res` formula cancels back. -/
theorem resonator_fres_is_5ghz (er h d g w : ℝ) (her : 1 < er) :
    (calcResonatorSParams er h d g w).fres = 5e9 := by
  have heff : 0 < (er + 1) / 2 + (er - 1) / 2 * (Real.sqrt (1 + 12 * h / w))⁻¹ := by
    have h2 : 0 ≤ (er - 1) / 2 * (Real.sqrt (1 + 12 * h / w))⁻¹ :=
      mul_nonneg (by linarith) (inv_nonneg.2 (Real.sqrt_nonneg _))
    linarith
  have hc : lightSpeed ≠ 0 := by norm_num [lightSpeed]
  simp only [calcResonatorSParams, calcResonatorLength]
  set s := Real.sqrt ((er + 1) / 2 + (er - 1) / 2 * (Real.sqrt (1 + 12 * h / w))⁻¹) with hsd
  have hs : s ≠ 0 := by
    rw [hsd]
    exact ne_of_gt (Real.sqrt_pos.2 heff)
  have hkey : 4 * (lightSpeed / (5e9 * s) / 4) * s = lightSpeed / 5e9 := by
    field_simp
    ring
  rw [hkey, div_div_eq_mul_div, mul_comm, mul_div_assoc, div_self hc, mul_one]

/-- Witness for claim C10 at the default substrate and the base geometry of
`question_8`. -/
theorem resonator_fres_is_5ghz_witness :
    (1 : ℝ) < 4.4 ∧ (calcResonatorSParams 4.4 0.0016 0.006 0.00005 0.001).fres = 5e9 :=
  ⟨by norm_num, resonator_fres_is_5ghz 4.4 0.0016 0.006 0.00005 0.001 (by norm_num)⟩

/-- Claim C9: the `(Z0, eff_er)` pair returned by `calc_microstrip_params`
depends only on `(width, height, permittivity)`: states agreeing on the
substrate return identical values whatever their written-back slots hold, and a
call made after an arbitrary earlier call with another width returns the same
value as a direct call. -/
theorem calc_params_pure (s₁ s₂ : AnalysisState) (w wPrev : ℝ)
    (her : s₁.er = s₂.er) (hh : s₁.h = s₂.h) :
    (calcParamsSt s₁ w).2 = (calcParamsSt s₂ w).2 ∧
      (calcParamsSt (calcParamsSt s₁ wPrev).1 w).2 = (calcParamsSt s₁ w).2 := by
  constructor
  · simp only [calcParamsSt, her, hh]
  · rfl

/-- Witness for claim C9: a fresh object and one with stale slots from earlier
calls agree, and a call after an earlier call with a different width agrees
with the direct call. -/
theorem calc_params_pure_witness :
    (calcParamsSt ⟨4.4, 0.0016, 0.025, none, none⟩ 0.002).2 =
        (calcParamsSt ⟨4.4, 0.0016, 0.025, some 77, some 99⟩ 0.002).2 ∧
      (calcParamsSt (calcParamsSt ⟨4.4, 0.0016, 0.025, none, none⟩ 0.005).1 0.002).2 =
        (calcParamsSt ⟨4.4, 0.0016, 0.025, none, none⟩ 0.002).2 :=
  calc_params_pure ⟨4.4, 0.0016, 0.025, none, none⟩ ⟨4.4, 0.0016, 0.025, some 77, some 99⟩
    0.002 0.005 rfl rfl

/-- Claim C7: with the dielectric loss term vanishing at `tand = 0`, the
conductor loss term zeroed (total attenuation 0), and a matched line
(`rho = 0`, attained exactly when `Z0` equals the 50 ohm reference), every
`S21` sample of `calc_s_parameters` is the pure phasor `exp(-i*beta*length)`:
unit magnitude and phase exactly `-beta*length`, with
`beta = 2*pi*f*sqrt(eff_er)/c`. -/
theorem s21_lossless_matched (er h w l f : ℝ) :
    alphaD er h 0 w f = 0 ∧ rhoOf 50 = 0 ∧
      S21line 0 (betaOf er h w f) 0 l =
        Complex.exp (-(betaOf er h w f * l) * Complex.I) ∧
      Complex.abs (S21line 0 (betaOf er h w f) 0 l) = 1 := by
  have h3 : S21line 0 (betaOf er h w f) 0 l =
      Complex.exp (-(betaOf er h w f * l) * Complex.I) := by
    simp only [S21line, Complex.ofReal_zero, zero_add]
    norm_num
    congr 1
    push_cast
    ring
  have h4 : Complex.abs (S21line 0 (betaOf er h w f) 0 l) = 1 := by
    rw [h3, Complex.abs_exp]
    simp
  refine ⟨by simp [alphaD], by norm_num [rhoOf], h3, h4⟩

theorem log_pi_half_le : Real.log (Real.pi / 2) ≤ 0.5068 := by
  have hx : (0 : ℝ) < Real.pi / 2 := by positivity
  have h1 : Real.log (Real.pi / 2) = 2 * Real.log (Real.sqrt (Real.pi / 2)) := by
    rw [Real.log_sqrt (le_of_lt hx)]
    ring
  have h2 : Real.log (Real.sqrt (Real.pi / 2)) ≤ Real.sqrt (Real.pi / 2) - 1 :=
    Real.log_le_sub_one_of_pos (Real.sqrt_pos.2 hx)
  have h3 : Real.sqrt (Real.pi / 2) < 1.2534 := by
    rw [Real.sqrt_lt' (by norm_num : (0:ℝ) < 1.2534)]
    nlinarith [Real.pi_lt_d6]
  linarith

theorem log_four_div_pi_le : Real.log (4 / Real.pi) ≤ 0.27325 := by
  have h1 : Real.log (4 / Real.pi) ≤ 4 / Real.pi - 1 :=
    Real.log_le_sub_one_of_pos (by positivity)
  have h2 : 4 / Real.pi < 1.27325 := by
    rw [div_lt_iff Real.pi_pos]
    nlinarith [Real.pi_gt_d6]
  linarith

theorem log_four_gt : (1.3862943 : ℝ) < Real.log 4 := by
  have h4 : Real.log 4 = 2 * Real.log 2 := by
    rw [show (4:ℝ) = 2 ^ 2 by norm_num, Real.log_pow]
    push_cast
    ring
  rw [h4]
  linarith [Real.log_two_gt_d9]

/-- Claim C1, behaviour of the code at the failing input: on the default FR4
substrate (`er = 4.4`, `h = 1.6 mm`) an 8 mm wide line is in the wide regime
and its forward impedance falls below 44 ohm, so the declared inverse takes its
`Z < 44` branch — which ignores the impedance argument — and returns a width
below 2 mm. The round trip thus loses more than three quarters of the original
8 mm width: no numerical tolerance is involved. -/
theorem roundtrip_fails_at_8mm :
    (calcMicrostripParams 4.4 0.0016 0.008).1 < 44 ∧
      roundTripWidth 4.4 0.0016 0.008 < 0.002 := by
  have hbranch : (1:ℝ) ≤ 0.008 / 0.0016 := by norm_num
  have hfwd : calcMicrostripParams 4.4 0.0016 0.008 =
      (z0Wide 4.4 0.0016 0.008, effErWide 4.4 0.0016 0.008) := by
    rw [calcMicrostripParams, if_pos hbranch]
  have h0 : 0 ≤ (4.4 - 1) / 2 * (Real.sqrt (1 + 12 * 0.0016 / 0.008))⁻¹ :=
    mul_nonneg (by norm_num) (inv_nonneg.2 (Real.sqrt_nonneg _))
  have heffge : (2.7:ℝ) ≤ effErWide 4.4 0.0016 0.008 := by
    rw [effErWide]
    linarith
  have hsqrt : (1.643:ℝ) ≤ Real.sqrt (effErWide 4.4 0.0016 0.008) := by
    have hs27 : (1.643:ℝ) ≤ Real.sqrt 2.7 := by
      rw [Real.le_sqrt' (by norm_num : (0:ℝ) < 1.643)]
      norm_num
    exact le_trans hs27 (Real.sqrt_le_sqrt heffge)
  have hlog : (1.3862943:ℝ) ≤ Real.log (0.008 / 0.0016 + 1.444) := by
    have h4le : Real.log 4 ≤ Real.log (0.008 / 0.0016 + 1.444) :=
      (Real.log_le_log_iff (by norm_num) (by norm_num)).2 (by norm_num)
    linarith [log_four_gt]
  have hD : (7.3176:ℝ) ≤ 0.008 / 0.0016 + 1.393 + 0.667 * Real.log (0.008 / 0.0016 + 1.444) := by
    nlinarith [hlog]
  have hden : (12.0228:ℝ) ≤ Real.sqrt (effErWide 4.4 0.0016 0.008) *
      (0.008 / 0.0016 + 1.393 + 0.667 * Real.log (0.008 / 0.0016 + 1.444)) := by
    nlinarith [hsqrt, hD]
  have hz : z0Wide 4.4 0.0016 0.008 < 44 := by
    rw [z0Wide]
    rw [div_lt_iff (lt_of_lt_of_le (by norm_num : (0:ℝ) < 12.0228) hden)]
    nlinarith [Real.pi_lt_d6, hden]
  have hrt_eq : roundTripWidth 4.4 0.0016 0.008 =
      calcMicrostripWidth 4.4 0.0016 (z0Wide 4.4 0.0016 0.008) := by
    rw [roundTripWidth, hfwd]
  have hwidth : calcMicrostripWidth 4.4 0.0016 (z0Wide 4.4 0.0016 0.008) =
      (2 / Real.pi * (4.4 - 1) * Real.log (Real.pi / 2) +
        1 / Real.pi * Real.log (4 / Real.pi)) * 0.0016 := by
    rw [calcMicrostripWidth, if_pos hz]
  have hL1n : 0 ≤ Real.log (Real.pi / 2) :=
    Real.log_nonneg (by nlinarith [Real.pi_gt_d6])
  have hL2n : 0 ≤ Real.log (4 / Real.pi) :=
    Real.log_nonneg (by rw [le_div_iff Real.pi_pos]; nlinarith [Real.pi_lt_d6])
  have hexpr : (2 / Real.pi * (4.4 - 1) * Real.log (Real.pi / 2) +
      1 / Real.pi * Real.log (4 / Real.pi)) * 0.0016 =
      (6.8 * Real.log (Real.pi / 2) + Real.log (4 / Real.pi)) * 0.0016 / Real.pi := by
    field_simp
    norm_num
  have hW : (2 / Real.pi * (4.4 - 1) * Real.log (Real.pi / 2) +
      1 / Real.pi * Real.log (4 / Real.pi)) * 0.0016 < 0.002 := by
    rw [hexpr, div_lt_iff Real.pi_pos]
    nlinarith [Real.pi_gt_d6, log_pi_half_le, log_four_div_pi_le, hL1n, hL2n]
  constructor
  · rw [hfwd]
    exact hz
  · rw [hrt_eq, hwidth]
    exact hW

theorem exp_quartic_bounds {x : ℝ} (h0 : 0 ≤ x) (h1 : x ≤ 1) :
    1 + x + x ^ 2 / 2 + x ^ 3 / 6 - x ^ 4 * (5 / 96) ≤ Real.exp x ∧
      Real.exp x ≤ 1 + x + x ^ 2 / 2 + x ^ 3 / 6 + x ^ 4 * (5 / 96) := by
  have habs : |x| ≤ 1 := by
    rw [abs_of_nonneg h0]
    exact h1
  have hb := Real.exp_bound habs (by norm_num : 0 < 4)
  simp only [Finset.sum_range_succ, Finset.sum_range_zero, Nat.factorial] at hb
  rw [abs_of_nonneg h0] at hb
  norm_num at hb
  obtain ⟨hub, hlb⟩ := abs_sub_le_iff.1 hb
  constructor
  · linarith
  · linarith

theorem exp_two_bounds : (7.389056 : ℝ) < Real.exp 2 ∧ Real.exp 2 < 7.3890562 := by
  have hsplit : Real.exp 2 = Real.exp 1 * Real.exp 1 := by
    rw [← Real.exp_add]
    norm_num
  rw [hsplit]
  constructor
  · nlinarith [Real.exp_one_gt_d9]
  · nlinarith [Real.exp_one_gt_d9, Real.exp_one_lt_d9]

theorem sqrt_27_10_bounds :
    (1.64316 : ℝ) < Real.sqrt ((4.4 + 1) / 2) ∧ Real.sqrt ((4.4 + 1) / 2) < 1.64317 :=
  ⟨Real.lt_sqrt_of_sq_lt (by norm_num), (Real.sqrt_lt' (by norm_num)).2 (by norm_num)⟩

theorem sqrt_zh1_bounds :
    (1.403833 : ℝ) < Real.sqrt (1 + 0.6180 * (Real.pi / 2) * (50 / 50)) ∧
      Real.sqrt (1 + 0.6180 * (Real.pi / 2) * (50 / 50)) < 1.403835 := by
  constructor
  · exact Real.lt_sqrt_of_sq_lt (by nlinarith [Real.pi_gt_d6])
  · exact (Real.sqrt_lt' (by norm_num)).2 (by nlinarith [Real.pi_lt_d6])

theorem widthA_zh1_bounds :
    (2.08282 : ℝ) < widthA 4.4 (zHighOf 0.6180) ∧ widthA 4.4 (zHighOf 0.6180) < 2.08284 := by
  obtain ⟨hs1l, hs1u⟩ := sqrt_zh1_bounds
  obtain ⟨hs2l, hs2u⟩ := sqrt_27_10_bounds
  have hs1pos : (0:ℝ) < Real.sqrt (1 + 0.6180 * (Real.pi / 2) * (50 / 50)) := by linarith
  have hs2pos : (0:ℝ) < Real.sqrt ((4.4 + 1) / 2) := by linarith
  have hpl : (1.403833 : ℝ) * 1.64316 <
      Real.sqrt (1 + 0.6180 * (Real.pi / 2) * (50 / 50)) * Real.sqrt ((4.4 + 1) / 2) := by
    nlinarith
  have hpu : Real.sqrt (1 + 0.6180 * (Real.pi / 2) * (50 / 50)) * Real.sqrt ((4.4 + 1) / 2) <
      (1.403835 : ℝ) * 1.64317 := by
    nlinarith
  rw [widthA, zHighOf]
  constructor
  · nlinarith
  · nlinarith

theorem exp_widthA_zh1_bounds :
    (8.027 : ℝ) < Real.exp (widthA 4.4 (zHighOf 0.6180)) ∧
      Real.exp (widthA 4.4 (zHighOf 0.6180)) < 8.0273 := by
  obtain ⟨hA1l, hA1u⟩ := widthA_zh1_bounds
  obtain ⟨he2l, he2u⟩ := exp_two_bounds
  have hlo : Real.exp 2.08282 ≤ Real.exp (widthA 4.4 (zHighOf 0.6180)) :=
    Real.exp_le_exp.2 (le_of_lt hA1l)
  have hhi : Real.exp (widthA 4.4 (zHighOf 0.6180)) ≤ Real.exp 2.08284 :=
    Real.exp_le_exp.2 (le_of_lt hA1u)
  have hsplo : Real.exp 2.08282 = Real.exp 2 * Real.exp 0.08282 := by
    rw [← Real.exp_add]
    norm_num
  have hsphi : Real.exp 2.08284 = Real.exp 2 * Real.exp 0.08284 := by
    rw [← Real.exp_add]
    norm_num
  have hx1 : (1.086341 : ℝ) ≤ Real.exp 0.08282 := by
    have hq := (exp_quartic_bounds (show (0:ℝ) ≤ 0.08282 by norm_num) (by norm_num)).1
    norm_num at hq
    linarith
  have hx2 : Real.exp 0.08284 ≤ 1.0863685 := by
    have hq := (exp_quartic_bounds (show (0:ℝ) ≤ 0.08284 by norm_num) (by norm_num)).2
    norm_num at hq
    linarith
  have hex1 : (0:ℝ) < Real.exp 0.08282 := Real.exp_pos _
  have hex2 : (0:ℝ) < Real.exp 2 := Real.exp_pos _
  constructor
  · have hmul : (7.389056 : ℝ) * 1.086341 < Real.exp 2 * Real.exp 0.08282 := by
      nlinarith
    rw [hsplo] at hlo
    nlinarith
  · have hmul : Real.exp 2 * Real.exp 0.08284 < (7.3890562 : ℝ) * 1.0863685 := by
      nlinarith [Real.exp_pos (0.08284 : ℝ)]
    rw [hsphi] at hhi
    nlinarith

theorem log_pi_half_gt : (0.451477 : ℝ) < Real.log (Real.pi / 2) := by
  have hmono : Real.log 1.570796 ≤ Real.log (Real.pi / 2) :=
    (Real.log_le_log_iff (by norm_num) (by positivity)).2 (by nlinarith [Real.pi_gt_d6])
  have hsplit : Real.log 1.570796 = Real.log 2 + Real.log 0.785398 := by
    rw [← Real.log_mul (by norm_num) (by norm_num)]
    norm_num
  have habs : |(0.214602 : ℝ)| < 1 := by
    rw [abs_of_nonneg (by norm_num : (0:ℝ) ≤ 0.214602)]
    norm_num
  have hser := Real.abs_log_sub_add_sum_range_le habs 5
  rw [abs_of_nonneg (by norm_num : (0:ℝ) ≤ 0.214602)] at hser
  simp only [Finset.sum_range_succ, Finset.sum_range_zero] at hser
  norm_num at hser hsplit hmono
  have hlow := (abs_le.1 hser).1
  have hlog : (-0.24167 : ℝ) ≤ Real.log (392699 / 500000) := by linarith
  linarith [Real.log_two_gt_d9]

theorem log_four_div_pi_gt : (0.214601 : ℝ) < Real.log (4 / Real.pi) := by
  have hinv : Real.log ((4 / Real.pi)⁻¹) ≤ (4 / Real.pi)⁻¹ - 1 :=
    Real.log_le_sub_one_of_pos (by positivity)
  rw [Real.log_inv, inv_div] at hinv
  have hq : Real.pi / 4 < 0.7853983 := by nlinarith [Real.pi_lt_d6]
  linarith

theorem width_step_antitone {A B : ℝ} (h2 : 2 < Real.exp A * Real.exp A) (hAB : A < B) :
    8 * Real.exp B / (Real.exp (2 * B) - 2) < 8 * Real.exp A / (Real.exp (2 * A) - 2) := by
  have hEA : (0:ℝ) < Real.exp A := Real.exp_pos A
  have hEB : (0:ℝ) < Real.exp B := Real.exp_pos B
  have hABexp : Real.exp A < Real.exp B := Real.exp_lt_exp.2 hAB
  have e2A : Real.exp (2 * A) = Real.exp A * Real.exp A := by
    rw [two_mul, Real.exp_add]
  have e2B : Real.exp (2 * B) = Real.exp B * Real.exp B := by
    rw [two_mul, Real.exp_add]
  rw [e2A, e2B]
  have hA2 : (0:ℝ) < Real.exp A * Real.exp A - 2 := by linarith
  have hB2 : (0:ℝ) < Real.exp B * Real.exp B - 2 := by nlinarith
  rw [div_lt_div_iff hB2 hA2]
  nlinarith [mul_pos (sub_pos.2 hABexp) (mul_pos hEA hEB)]

theorem zh1_not_lt_44 : ¬ zHighOf 0.6180 < 44 := by
  rw [zHighOf]
  have h1 : (1:ℝ) ≤ Real.sqrt (1 + 0.6180 * (Real.pi / 2) * (50 / 50)) := by
    rw [Real.le_sqrt' one_pos]
    nlinarith [Real.pi_pos]
  exact not_lt.2 (by nlinarith [h1])

theorem zh2_not_lt_44 : ¬ zHighOf 2.0000 < 44 := by
  rw [zHighOf]
  have h1 : (1:ℝ) ≤ Real.sqrt (1 + 2.0000 * (Real.pi / 2) * (50 / 50)) := by
    rw [Real.le_sqrt' one_pos]
    nlinarith [Real.pi_pos]
  exact not_lt.2 (by nlinarith [h1])

theorem zlow_lt_44 : zLowOf 1.6180 < 44 := by
  rw [zLowOf]
  have harg : (0:ℝ) < 1 + 1.6180 * (Real.pi / 2) * (50 / 50) := by nlinarith [Real.pi_pos]
  have hs : (25 / 22 : ℝ) < Real.sqrt (1 + 1.6180 * (Real.pi / 2) * (50 / 50)) :=
    Real.lt_sqrt_of_sq_lt (by nlinarith [Real.pi_gt_d6])
  rw [div_lt_iff (Real.sqrt_pos.2 harg)]
  nlinarith [hs]

theorem zh1_lt_zh2 : zHighOf 0.6180 < zHighOf 2.0000 := by
  rw [zHighOf, zHighOf]
  have h := Real.sqrt_lt_sqrt
    (show (0:ℝ) ≤ 1 + 0.6180 * (Real.pi / 2) * (50 / 50) by nlinarith [Real.pi_pos])
    (show (1:ℝ) + 0.6180 * (Real.pi / 2) * (50 / 50) <
      1 + 2.0000 * (Real.pi / 2) * (50 / 50) by nlinarith [Real.pi_pos])
  nlinarith [h]

theorem zlow_lt_zh1 : zLowOf 1.6180 < zHighOf 0.6180 :=
  lt_of_lt_of_le zlow_lt_44 (not_lt.1 zh1_not_lt_44)

theorem widthA_mono : widthA 4.4 (zHighOf 0.6180) < widthA 4.4 (zHighOf 2.0000) := by
  have hZ := zh1_lt_zh2
  have hs2pos : (0:ℝ) < Real.sqrt ((4.4 + 1) / 2) := Real.sqrt_pos.2 (by norm_num)
  rw [widthA, widthA]
  have hm := mul_lt_mul_of_pos_right hZ hs2pos
  linarith


theorem wh1_eq : calcMicrostripWidth 4.4 0.0016 (zHighOf 0.6180) =
    8 * Real.exp (widthA 4.4 (zHighOf 0.6180)) /
      (Real.exp (2 * widthA 4.4 (zHighOf 0.6180)) - 2) * 0.0016 := by
  rw [calcMicrostripWidth, if_neg zh1_not_lt_44]

theorem wh2_eq : calcMicrostripWidth 4.4 0.0016 (zHighOf 2.0000) =
    8 * Real.exp (widthA 4.4 (zHighOf 2.0000)) /
      (Real.exp (2 * widthA 4.4 (zHighOf 2.0000)) - 2) * 0.0016 := by
  rw [calcMicrostripWidth, if_neg zh2_not_lt_44]

theorem wl_eq : calcMicrostripWidth 4.4 0.0016 (zLowOf 1.6180) =
    (2 / Real.pi * (4.4 - 1) * Real.log (Real.pi / 2) +
      1 / Real.pi * Real.log (4 / Real.pi)) * 0.0016 := by
  rw [calcMicrostripWidth, if_pos zlow_lt_44]

theorem exp_twice_widthA (er Z : ℝ) :
    Real.exp (2 * widthA er Z) = Real.exp (widthA er Z) * Real.exp (widthA er Z) := by
  rw [two_mul, Real.exp_add]

theorem wh1_pos : 0 < calcMicrostripWidth 4.4 0.0016 (zHighOf 0.6180) := by
  obtain ⟨hE1l, hE1u⟩ := exp_widthA_zh1_bounds
  have hd1 : 0 < Real.exp (widthA 4.4 (zHighOf 0.6180)) *
      Real.exp (widthA 4.4 (zHighOf 0.6180)) - 2 := by nlinarith
  rw [wh1_eq, exp_twice_widthA]
  exact mul_pos (div_pos (by positivity) hd1) (by norm_num)

theorem wh2_pos : 0 < calcMicrostripWidth 4.4 0.0016 (zHighOf 2.0000) := by
  obtain ⟨hE1l, hE1u⟩ := exp_widthA_zh1_bounds
  have hE2gt : Real.exp (widthA 4.4 (zHighOf 0.6180)) <
      Real.exp (widthA 4.4 (zHighOf 2.0000)) := Real.exp_lt_exp.2 widthA_mono
  have hd2 : 0 < Real.exp (widthA 4.4 (zHighOf 2.0000)) *
      Real.exp (widthA 4.4 (zHighOf 2.0000)) - 2 := by nlinarith
  rw [wh2_eq, exp_twice_widthA]
  exact mul_pos (div_pos (by positivity) hd2) (by norm_num)

theorem wl_pos : 0 < calcMicrostripWidth 4.4 0.0016 (zLowOf 1.6180) := by
  have hL1pos : 0 < Real.log (Real.pi / 2) :=
    Real.log_pos (by nlinarith [Real.pi_gt_d6])
  have hL2pos : 0 < Real.log (4 / Real.pi) :=
    Real.log_pos (by rw [lt_div_iff Real.pi_pos]; nlinarith [Real.pi_lt_d6])
  rw [wl_eq]
  have h1 : 0 < 2 / Real.pi * (4.4 - 1) * Real.log (Real.pi / 2) :=
    mul_pos (mul_pos (by positivity) (by norm_num)) hL1pos
  have h2 : 0 < 1 / Real.pi * Real.log (4 / Real.pi) :=
    mul_pos (by positivity) hL2pos
  nlinarith

theorem wh2_lt_wh1 : calcMicrostripWidth 4.4 0.0016 (zHighOf 2.0000) <
    calcMicrostripWidth 4.4 0.0016 (zHighOf 0.6180) := by
  obtain ⟨hE1l, hE1u⟩ := exp_widthA_zh1_bounds
  have hsq1 : 2 < Real.exp (widthA 4.4 (zHighOf 0.6180)) *
      Real.exp (widthA 4.4 (zHighOf 0.6180)) := by nlinarith
  rw [wh1_eq, wh2_eq]
  exact mul_lt_mul_of_pos_right (width_step_antitone hsq1 widthA_mono) (by norm_num)

set_option maxHeartbeats 800000 in
theorem wh1_lt_wl : calcMicrostripWidth 4.4 0.0016 (zHighOf 0.6180) <
    calcMicrostripWidth 4.4 0.0016 (zLowOf 1.6180) := by
  obtain ⟨hE1l, hE1u⟩ := exp_widthA_zh1_bounds
  have hd1 : 0 < Real.exp (widthA 4.4 (zHighOf 0.6180)) *
      Real.exp (widthA 4.4 (zHighOf 0.6180)) - 2 := by nlinarith
  rw [wh1_eq, wl_eq, exp_twice_widthA]
  have hlhs : 8 * Real.exp (widthA 4.4 (zHighOf 0.6180)) /
      (Real.exp (widthA 4.4 (zHighOf 0.6180)) *
        Real.exp (widthA 4.4 (zHighOf 0.6180)) - 2) < 1.0286 := by
    rw [div_lt_iff hd1]
    nlinarith [sq_nonneg (Real.exp (widthA 4.4 (zHighOf 0.6180)) - 8.027)]
  have hrw : 2 / Real.pi * (4.4 - 1) * Real.log (Real.pi / 2) +
      1 / Real.pi * Real.log (4 / Real.pi) =
      (6.8 * Real.log (Real.pi / 2) + Real.log (4 / Real.pi)) / Real.pi := by
    field_simp
    norm_num
  have hrhs : (1.0455 : ℝ) < 2 / Real.pi * (4.4 - 1) * Real.log (Real.pi / 2) +
      1 / Real.pi * Real.log (4 / Real.pi) := by
    rw [hrw, lt_div_iff Real.pi_pos]
    nlinarith [Real.pi_lt_d6, log_pi_half_gt, log_four_div_pi_gt]
  have hstep : 8 * Real.exp (widthA 4.4 (zHighOf 0.6180)) /
      (Real.exp (widthA 4.4 (zHighOf 0.6180)) *
        Real.exp (widthA 4.4 (zHighOf 0.6180)) - 2) <
      2 / Real.pi * (4.4 - 1) * Real.log (Real.pi / 2) +
        1 / Real.pi * Real.log (4 / Real.pi) := by
    linarith
  exact mul_lt_mul_of_pos_right hstep (by norm_num)

theorem wh2_lt_wl : calcMicrostripWidth 4.4 0.0016 (zHighOf 2.0000) <
    calcMicrostripWidth 4.4 0.0016 (zLowOf 1.6180) := lt_trans wh2_lt_wh1 wh1_lt_wl

set_option maxHeartbeats 1600000 in
/-- Claim C4: in the design returned by `design_stepped_lpf` for `fc = 3e9`,
`n = 5` on the default FR4 substrate, every section width is strictly positive,
and across all five (impedance, width) sections the one with strictly higher
impedance has strictly narrower width. -/
theorem lpf_design_widths_consistent :
    (lpfSections (designSteppedLPF 4.4 0.0016 3e9 5)).length = 5 ∧
      (lpfSections (designSteppedLPF 4.4 0.0016 3e9 5)).Forall (fun s => 0 < s.2) ∧
      (lpfSections (designSteppedLPF 4.4 0.0016 3e9 5)).Pairwise
        (fun s t => (s.1 < t.1 → t.2 < s.2) ∧ (t.1 < s.1 → s.2 < t.2)) := by
  have h5 : impedanceLists 5 =
      some ([zHighOf 0.6180, zHighOf 2.0000, zHighOf 0.6180],
        [zLowOf 1.6180, zLowOf 1.6180]) := rfl
  have hsec : lpfSections (designSteppedLPF 4.4 0.0016 3e9 5) =
      [(zHighOf 0.6180, calcMicrostripWidth 4.4 0.0016 (zHighOf 0.6180)),
        (zHighOf 2.0000, calcMicrostripWidth 4.4 0.0016 (zHighOf 2.0000)),
        (zHighOf 0.6180, calcMicrostripWidth 4.4 0.0016 (zHighOf 0.6180)),
        (zLowOf 1.6180, calcMicrostripWidth 4.4 0.0016 (zLowOf 1.6180)),
        (zLowOf 1.6180, calcMicrostripWidth 4.4 0.0016 (zLowOf 1.6180))] := by
    rw [designSteppedLPF, h5, Option.map_some']
    simp only [lpfSections, List.map_cons, List.map_nil, List.zip_cons_cons,
      List.zip_nil_right, List.cons_append, List.nil_append]
  have hZl2 : zLowOf 1.6180 < zHighOf 2.0000 := lt_trans zlow_lt_zh1 zh1_lt_zh2
  rw [hsec]
  refine ⟨rfl, ⟨wh1_pos, wh2_pos, wh1_pos, wl_pos, wl_pos⟩, ?_⟩
  refine List.Pairwise.cons (fun b hb => ?_) (List.Pairwise.cons (fun b hb => ?_)
    (List.Pairwise.cons (fun b hb => ?_) (List.Pairwise.cons (fun b hb => ?_)
      (List.Pairwise.cons (fun b hb => ?_) List.Pairwise.nil))))
  · simp only [List.mem_cons, List.mem_singleton, List.not_mem_nil, or_false] at hb
    rcases hb with rfl | rfl | rfl | rfl
    · exact ⟨fun _ => wh2_lt_wh1, fun hlt => absurd hlt (not_lt.2 zh1_lt_zh2.le)⟩
    · exact ⟨fun hlt => absurd hlt (lt_irrefl _), fun hlt => absurd hlt (lt_irrefl _)⟩
    · exact ⟨fun hlt => absurd hlt (not_lt.2 zlow_lt_zh1.le), fun _ => wh1_lt_wl⟩
    · exact ⟨fun hlt => absurd hlt (not_lt.2 zlow_lt_zh1.le), fun _ => wh1_lt_wl⟩
  · simp only [List.mem_cons, List.mem_singleton, List.not_mem_nil, or_false] at hb
    rcases hb with rfl | rfl | rfl
    · exact ⟨fun hlt => absurd hlt (not_lt.2 zh1_lt_zh2.le), fun _ => wh2_lt_wh1⟩
    · exact ⟨fun hlt => absurd hlt (not_lt.2 hZl2.le), fun _ => wh2_lt_wl⟩
    · exact ⟨fun hlt => absurd hlt (not_lt.2 hZl2.le), fun _ => wh2_lt_wl⟩
  · simp only [List.mem_cons, List.mem_singleton, List.not_mem_nil, or_false] at hb
    rcases hb with rfl | rfl
    · exact ⟨fun hlt => absurd hlt (not_lt.2 zlow_lt_zh1.le), fun _ => wh1_lt_wl⟩
    · exact ⟨fun hlt => absurd hlt (not_lt.2 zlow_lt_zh1.le), fun _ => wh1_lt_wl⟩
  · simp only [List.mem_singleton] at hb
    subst hb
    exact ⟨fun hlt => absurd hlt (lt_irrefl _), fun hlt => absurd hlt (lt_irrefl _)⟩
  · exact absurd hb (List.not_mem_nil b)

end

end RF
